import Mathlib

/-
Verification of the differential fuzzing loop in src/Fuzzer/FuzzerLoop.cpp.

Shallow embedding conventions:
* Byte sequences (units, hashes) are `List Nat`; machine words of the PC
  table are `Nat` (the low 64 bits are what the packing reads).
* SHA-1 is an out-of-scope utility (FuzzerSHA1); functions that hash take an
  arbitrary `sha1f : List Nat → List Nat` parameter.  The C++ keys its sets
  by the hex string `Sha1ToString(Hash)`; since hex encoding is injective we
  key directly by the digest bytes.
* External collaborators (TracePC, Corpus, MutationDispatcher, sanitizer
  runtime) are represented by oracle inputs: per-callback observations
  (`CbObs`), the booleans returned by `TPC.NewOutputDiff_change` /
  `TPC.NewTraceDiff`, and the total-PC-coverage readings.
* Calls into external components and file writes are recorded as `Event`s;
  an artifact event records the call to `WriteUnitToFileWithPrefix` with its
  name prefix and the unit written (the final filename appends the unit's
  SHA-1 hex to the prefix; -artifact_prefix handling is I/O outside the
  model).  Process termination (`_Exit`) is a returned outcome value.
-/

/-- The option fields of `FuzzingOptions` that the modelled code reads.
`RssLimitMb` is an `int` cast to `size_t` in the comparison; a non-negative
configuration is assumed. -/
structure FuzzingOptions where
  rssLimitMb : Nat
  errorExitCode : Int
  differentialMode : Bool
  reduceInputs : Bool
  experimentalLenControl : Bool
deriving DecidableEq, Repr

/-- Outcome of `Fuzzer::HandleMalloc`: either the hook returns, or it dumps
the current unit with the given artifact name tag, prints final stats and
calls `_Exit` with the given code. -/
inductive MallocOutcome where
  | ret
  | oomExit (dumpTag : String) (printedFinalStats : Bool) (exitCode : Int)
deriving DecidableEq, Repr

/-- `Fuzzer::HandleMalloc(Size)` (FuzzerLoop.cpp:145-157): returns unless
`RssLimitMb` is set and `Size >> 20` reaches it; otherwise dumps the current
unit with the `oom-` name tag, prints final stats and exits with
`ErrorExitCode`. -/
def HandleMalloc (opts : FuzzingOptions) (Size : Nat) : MallocOutcome :=
  if opts.rssLimitMb = 0 ∨ Size >>> 20 < opts.rssLimitMb then .ret
  else .oomExit ("oom-") true opts.errorExitCode

/-- `ComputeMutationLen` (FuzzerLoop.cpp:735-746).  `R` is the value drawn
from `Rand.Rand()`; `1U << 7 = 2^7`, `1U << 15 = 2^15`. -/
def ComputeMutationLen (MaxInputSize MaxMutationLen R : Nat) : Nat :=
  if MaxInputSize = MaxMutationLen then MaxMutationLen
  else
    let Result := MaxInputSize
    let Result := if R % 2 ^ 7 = 0 then Result + 1 else Result
    let Result := if R % 2 ^ 15 = 0 then Result + (10 + Result / 2) else Result
    min Result MaxMutationLen

/-- The per-iteration mutation cap chosen in `Fuzzer::MutateAndTestOne`
(FuzzerLoop.cpp:763-767): `ComputeMutationLen` under
`Options.ExperimentalLenControl`, else `MaxMutationLen`. -/
def currentMaxMutationLen (experimentalLenControl : Bool)
    (maxInputSize maxMutationLen R : Nat) : Nat :=
  if experimentalLenControl then ComputeMutationLen maxInputSize maxMutationLen R
  else maxMutationLen

/-- `LooseMemeq(A, B, Size)` (FuzzerLoop.cpp:612-619): full `memcmp` for
`Size <= 64`, otherwise the first and last `Limit/2 = 32` bytes. -/
def LooseMemeq (A B : List Nat) (Size : Nat) : Bool :=
  if Size ≤ 64 then A.take Size == B.take Size
  else (A.take 32 == B.take 32) &&
       ((A.drop (Size - 32)).take 32 == (B.drop (Size - 32)).take 32)

/-- Outcome of `Fuzzer::ExecuteCallback`: the callback's return value, or
the `CrashOnOverwrittenData` path (dump the current unit with the `crash-`
name tag, `_Exit(ErrorExitCode)`). -/
inductive ExecResult where
  | ok (ret : Int)
  | crashExit (dumpTag : String) (exitCode : Int)
deriving DecidableEq, Repr

/-- `Fuzzer::ExecuteCallback(Data, Size)` (FuzzerLoop.cpp:621-650).  The
target callback `cb` receives the fresh heap copy of the input and yields
its return value together with the final contents of that buffer; after the
run the copy is compared to the caller's buffer with `LooseMemeq` and on
mismatch `CrashOnOverwrittenData` (FuzzerLoop.cpp:603-609) dumps a `crash-`
artifact and exits with `ErrorExitCode`.  On success the heap copy is
freed (deallocation itself is not observable in the model) and the
callback's return value is returned.  `Size = Data.length`. -/
def ExecuteCallback (opts : FuzzingOptions) (cb : List Nat → Int × List Nat)
    (Data : List Nat) : ExecResult :=
  let DataCopy := Data
  let r := cb DataCopy
  if LooseMemeq r.2 Data Data.length then .ok r.1
  else .crashExit ("crash-") opts.errorExitCode

/-- The `Fuzzer` members driving mutation dedup (`hashMap`,
`NumberOfDuplicate`), written by the retry loop in `MutateAndTestOne`. -/
structure MutState where
  hashMap : List (List Nat)
  numberOfDuplicate : Nat
deriving DecidableEq, Repr

/-- One execution of the body of the `do { ... } while` retry loop in
`Fuzzer::MutateAndTestOne` (FuzzerLoop.cpp:776-792) on a candidate already
produced by `MD.Mutate`: hash the candidate; if the hash is present count a
duplicate (the `continue` transfers control to the loop condition), else
register the hash. -/
def mutLoopBody (sha1f : List Nat → List Nat) (cand : List Nat)
    (s : MutState) : MutState :=
  let h := sha1f cand
  if h ∈ s.hashMap then {s with numberOfDuplicate := s.numberOfDuplicate + 1}
  else {s with hashMap := h :: s.hashMap}

/-- The `do { NewSize = MD.Mutate(...); ... } while (NewSize >
CurrentMaxMutationLen)` loop of `Fuzzer::MutateAndTestOne`
(FuzzerLoop.cpp:776-792), driven by the stream of candidates the mutation
engine would return.  In C++ `continue` inside a do-while jumps to the
condition, so iteration continues only while the candidate is oversized;
the loop exits with the first candidate whose size is within `cap`, and
that candidate is the one passed to `RunOne` at FuzzerLoop.cpp:798.
`none` models exhaustion of the supplied candidate stream. -/
def mutateLoop (sha1f : List Nat → List Nat) (cap : Nat) :
    List (List Nat) → MutState → Option (List Nat × MutState)
  | [], _ => none
  | cand :: rest, s =>
    let s' := mutLoopBody sha1f cand s
    if cap < cand.length then mutateLoop sha1f cap rest s'
    else some (cand, s')

/-- Little-endian packing of one native word into 8 bytes, the body of the
loop in `uint_to_uint8` (FuzzerLoop.cpp:68-81): `dest[i*8+k] =
(uint8_t)(source[i] >> 8*k)` for `k = 0..7`. -/
def word_le_bytes (w : Nat) : List Nat :=
  [w % 256, (w >>> 8) % 256, (w >>> 16) % 256, (w >>> 24) % 256,
   (w >>> 32) % 256, (w >>> 40) % 256, (w >>> 48) % 256, (w >>> 56) % 256]

/-- `uint_to_uint8(source, dest, size)` (FuzzerLoop.cpp:68-81): packs each
native word of `source` little-endian into 8 consecutive bytes of `dest`. -/
def uint_to_uint8 : List Nat → List Nat
  | [] => []
  | w :: ws => word_le_bytes w ++ uint_to_uint8 ws

/-- The `for (j...)` loop of `Fuzzer::DumpUnitIfDiff` (FuzzerLoop.cpp:232-241)
building the `Coverage` buffer.  `Mid` is the byte-packed PC table; at step
`j` the code first advances `index` by `8*ModuleNum[j]` and then, when
`OutputDiffVec[j] != 0`, appends `8*ModuleNum[j+1]` bytes starting at
`Mid+index`.  The recursion consumes `ModuleNum` and `OutputDiffVec`
together; `size = TPC.UC->size` equals the length of `OutputDiffVec`. -/
def divCovLoop (Mid : List Nat) : Nat → List Nat → List Int → List Nat
  | index, mn0 :: mn1 :: mns, d :: ds =>
    (if d ≠ 0 then ((Mid.drop (index + 8 * mn0)).take (8 * mn1)) else [])
      ++ divCovLoop Mid (index + 8 * mn0) (mn1 :: mns) ds
  | _, _, _ => []

/-- The divergence-coverage byte blob hashed by `Fuzzer::DumpUnitIfDiff`
(FuzzerLoop.cpp:227-245): the coverage loop run over the packed global PC
table starting at `index = 0`. -/
def divCoverageBlob (pcs MN : List Nat) (dv : List Int) : List Nat :=
  divCovLoop (uint_to_uint8 pcs) 0 MN dv

/-- The SHA-1 fingerprint of the divergence-coverage blob
(`ComputeSHA1(Coverage, CovSize, Hash)`, FuzzerLoop.cpp:244-245). -/
def divergenceFingerprint (sha1f : List Nat → List Nat) (pcs MN : List Nat)
    (dv : List Int) : List Nat :=
  sha1f (divCoverageBlob pcs MN dv)

/-- Concatenation of a list of byte strings. -/
def concatAll : List (List Nat) → List Nat
  | [] => []
  | l :: ls => l ++ concatAll ls

/-- The PC-region boundary of the claim's wording: `prefix[i] = ModuleNum[0]
+ ... + ModuleNum[i]`, so callback `i` owns the words from `prefix[i]` to
`prefix[i+1]` of the global PC table (the leading entry `ModuleNum[0]`
counts the PCs of the module preceding the first callback). -/
def pcRegionStart (MN : List Nat) (i : Nat) : Nat := (MN.take (i + 1)).sum

/-- The divergence-coverage blob as the spec words it (spec §4.4 step 5b):
concatenate, for every callback `i` with `output_diff_vec[i] != 0` in
increasing `i`, the words of the global PC table from `prefix[i]` to
`prefix[i+1]`, each packed little-endian into 8 bytes. -/
def spec_divergence_coverage (pcs MN : List Nat) (dv : List Int) : List Nat :=
  concatAll ((List.range dv.length).map fun i =>
    if dv.getD i 0 ≠ 0 then
      uint_to_uint8 ((pcs.drop (pcRegionStart MN i)).take
        (pcRegionStart MN (i + 1) - pcRegionStart MN i))
    else [])

/-- `has_zero` of the scan loop in `DumpUnitIfDiff` (FuzzerLoop.cpp:214-220). -/
def hasZero (dv : List Int) : Bool := dv.any fun v => v == 0

/-- `has_nonzero` of the scan loop in `DumpUnitIfDiff` (FuzzerLoop.cpp:214-220). -/
def hasNonzero (dv : List Int) : Bool := dv.any fun v => v != 0

/-- The stringstream `SS` of `DumpUnitIfDiff` (FuzzerLoop.cpp:219): every
return code of `OutputDiffVec` followed by `"_"`. -/
def outvecStr (dv : List Int) : String :=
  String.join (dv.map fun v => toString v ++ "_")

/-- The `Fuzzer`/`TracePC` members that the differential path reads and
writes: `TPC.OutputDiffVec`, the divergence dedup map `CoverageHash` (keyed
by digest), and the counters `Duplicate`, `NumberOfDiffUnitsAdded`,
`NumberofValidCases`, `TotalNumberOfRuns`, plus the thread-local flag
`UnitHadOutputDiff`. -/
structure FuzzerState where
  outputDiffVec : List Int
  coverageHash : List (List Nat)
  duplicate : Nat
  numberOfDiffUnitsAdded : Nat
  unitHadOutputDiff : Bool
  numberofValidCases : Nat
  totalNumberOfRuns : Nat
deriving DecidableEq, Repr

/-- Observable calls into external components (corpus, coverage runtime,
artifact writer).  `writeArtifact tag data` records
`WriteUnitToFileWithPrefix({data}, tag)`; `addToCorpus` records
`Corpus.AddToCorpus(unit, numFeatures, MayDeleteFile, featureSet)`;
`execCB` records `ExecuteCallback` running the active target callback;
`addFeature` records one `Corpus.AddFeature` from `TPC.CollectFeatures`;
`tryReplace` records a `Corpus.TryToReplace` attempt. -/
inductive Event where
  | execCB (data : List Nat)
  | addFeature (f : Nat)
  | addToCorpus (data : List Nat) (numFeatures : Nat) (featureSet : List Nat)
  | tryReplace (data : List Nat)
  | writeArtifact (tag : String) (data : List Nat)
deriving DecidableEq, Repr

/-- `Fuzzer::DumpUnitIfDiff(Data, Size)` (FuzzerLoop.cpp:210-260).  Scans
`TPC.OutputDiffVec`; when both a zero and a non-zero return code are
present, fingerprints the divergence coverage; a fingerprint already in
`CoverageHash` only bumps `Duplicate`, an unseen one is inserted, sets
`UnitHadOutputDiff`, bumps `NumberOfDiffUnitsAdded` and writes the unit
with name prefix `"diff_" + SS.str()`. -/
def DumpUnitIfDiff (sha1f : List Nat → List Nat) (pcs MN : List Nat)
    (Data : List Nat) (s : FuzzerState) : FuzzerState × List Event :=
  let dv := s.outputDiffVec
  if hasZero dv && hasNonzero dv then
    let fp := divergenceFingerprint sha1f pcs MN dv
    if fp ∈ s.coverageHash then
      ({s with duplicate := s.duplicate + 1}, [])
    else
      ({s with coverageHash := fp :: s.coverageHash,
               unitHadOutputDiff := true,
               numberOfDiffUnitsAdded := s.numberOfDiffUnitsAdded + 1},
       [Event.writeArtifact ("diff_" ++ outvecStr dv) Data])
  else (s, [])

/-- External observations for one callback execution inside `RunOne`:
the return code the target produced (via `ExecuteCallback`; executions
that die in `CrashOnOverwrittenData` terminate the process and are covered
by the `ExecuteCallback` model itself), the features `TPC.CollectFeatures`
enumerates, the `Corpus.NumFeatureUpdates()` delta those features caused,
and the result of `Corpus.TryToReplace`. -/
structure CbObs where
  ret : Int
  collected : List Nat
  numNewFeatures : Nat
  tryReplaceOk : Bool
deriving DecidableEq, Repr

/-- `Fuzzer::RunOneCallback(Data, Size, idx, MayDeleteFile, II)`
(FuzzerLoop.cpp:517-543).  Empty input returns `false` immediately.
Otherwise the callback runs, its return code is stored in
`TPC.OutputDiffVec[idx]` in differential mode, features are collected
(`FeatureSetTmp` keeps them only under `Options.ReduceInputs`), and the
input is added to the corpus when it produced new features, else offered
to `Corpus.TryToReplace` when a corpus entry `II` was supplied. -/
def RunOneCallback (opts : FuzzingOptions) (obs : CbObs) (Data : List Nat)
    (idx : Nat) (hasII : Bool) (s : FuzzerState) :
    Bool × FuzzerState × List Event :=
  if Data.length = 0 then (false, s, [])
  else
    let s1 := if opts.differentialMode then
        {s with outputDiffVec := s.outputDiffVec.set idx obs.ret}
      else s
    let featureSetTmp := if opts.reduceInputs then obs.collected else []
    let evs := Event.execCB Data :: obs.collected.map Event.addFeature
    if 0 < obs.numNewFeatures then
      (true, s1, evs ++ [Event.addToCorpus Data obs.numNewFeatures featureSetTmp])
    else
      let evs2 := evs ++ (if hasII then [Event.tryReplace Data] else [])
      if hasII && obs.tryReplaceOk then (true, s1, evs2)
      else (false, s1, evs2)

/-- The `for (i = 0; i < TPC.UC->size; ++i)` loop of the differential
branch of `Fuzzer::RunOne` (FuzzerLoop.cpp:555-560): runs
`RunOneCallback` for each target callback, accumulating `features +=
cb_ret`.  The per-callback observations stand for the successive targets
`TPC.UC->callbacks[i]`. -/
def runCallbacksFrom (opts : FuzzingOptions) (hasII : Bool) (Data : List Nat) :
    Nat → List CbObs → FuzzerState → Nat × FuzzerState × List Event
  | _, [], s => (0, s, [])
  | i, ob :: obs, s =>
    let r := RunOneCallback opts ob Data i hasII s
    let rest := runCallbacksFrom opts hasII Data (i + 1) obs r.2.1
    ((if r.1 then 1 else 0) + rest.1, rest.2.1, r.2.2 ++ rest.2.2)

/-- The divergence block of `Fuzzer::RunOne` (FuzzerLoop.cpp:569-580):
under `new_diff`, clear `FeatureSetTmp`, run `DumpUnitIfDiff`, and when
`UnitHadOutputDiff` was set add the input to the corpus with
`NumCoverage` as its feature count and the (cleared) empty feature set. -/
def diffRetentionStep (sha1f : List Nat → List Nat) (pcs MN : List Nat)
    (Data : List Nat) (NumCoverage : Nat) (newDiff : Bool) (s : FuzzerState) :
    FuzzerState × List Event :=
  if newDiff then
    let r := DumpUnitIfDiff sha1f pcs MN Data s
    if r.1.unitHadOutputDiff then
      (r.1, r.2 ++ [Event.addToCorpus Data NumCoverage []])
    else r
  else (s, [])

/-- `Fuzzer::RunOne(Data, Size, MayDeleteFile, II)` (FuzzerLoop.cpp:545-595).
In differential mode: reset `UnitHadOutputDiff`, run all target callbacks,
compute the coverage delta `NumCoverage = GetTotalPCCoverage() -
CoverageBefore`, count a valid case under `TPC.NewTraceDiff`, run the
divergence block under `new_diff = TPC.NewOutputDiff_change()`, bump
`TotalNumberOfRuns`, and report interesting iff `features > 0` or
`new_diff`.  `TPC.ResetCoverage()` and the periodic `log_save` are external
effects outside the state modelled here.  Outside differential mode,
`RunOne` is `RunOneCallback` at index 0. -/
def RunOne (sha1f : List Nat → List Nat) (pcs MN : List Nat)
    (opts : FuzzingOptions) (obsList : List CbObs) (newDiff newTrace : Bool)
    (covBefore covAfter : Nat) (hasII : Bool) (Data : List Nat)
    (s : FuzzerState) : Bool × FuzzerState × List Event :=
  if opts.differentialMode then
    let s0 := {s with unitHadOutputDiff := false}
    let t := runCallbacksFrom opts hasII Data 0 obsList s0
    let NumCoverage := covAfter - covBefore
    let s2 := if newTrace then
        {t.2.1 with numberofValidCases := t.2.1.numberofValidCases + 1}
      else t.2.1
    let d := diffRetentionStep sha1f pcs MN Data NumCoverage newDiff s2
    let s3 := {d.1 with totalNumberOfRuns := d.1.totalNumberOfRuns + 1}
    ((if 0 < t.1 then true else newDiff), s3, t.2.2 ++ d.2)
  else
    RunOneCallback opts (obsList.getD 0 ⟨0, [], 0, false⟩) Data 0 hasII s

/-- Number of `diff_*` artifacts with divergence fingerprint `fp` written
along a whole process history of `DumpUnitIfDiff` calls, each call seeing
the `OutputDiffVec` its run produced. -/
def countDiffWrites (sha1f : List Nat → List Nat) (pcs MN fp : List Nat) :
    List (List Nat × List Int) → FuzzerState → Nat
  | [], _ => 0
  | c :: rest, s =>
    let r := DumpUnitIfDiff sha1f pcs MN c.1 {s with outputDiffVec := c.2}
    (if divergenceFingerprint sha1f pcs MN c.2 = fp ∧ r.2 ≠ [] then 1 else 0)
      + countDiffWrites sha1f pcs MN fp rest r.1

/-- Intermediate form of the divergence-coverage loop, at the level of PC
words rather than packed bytes: the bridge between `divCovLoop` and
`spec_divergence_coverage`. -/
def specRecCov (pcs : List Nat) : Nat → List Nat → List Int → List Nat
  | a, mn0 :: mn1 :: mns, d :: ds =>
    (if d ≠ 0 then uint_to_uint8 ((pcs.drop (a + mn0)).take mn1) else [])
      ++ specRecCov pcs (a + mn0) (mn1 :: mns) ds
  | _, _, _ => []

theorem handleMalloc_cases (opts : FuzzingOptions) (Size : Nat) :
    (opts.rssLimitMb = 0 ∨ Size >>> 20 < opts.rssLimitMb →
      HandleMalloc opts Size = .ret) ∧
    (opts.rssLimitMb ≠ 0 → ¬ Size >>> 20 < opts.rssLimitMb →
      HandleMalloc opts Size = .oomExit ("oom-") true opts.errorExitCode) := by
  constructor
  · intro h
    simp [HandleMalloc, h]
  · intro h1 h2
    simp only [HandleMalloc]
    rw [if_neg]
    push_neg
    exact ⟨h1, le_of_not_lt h2⟩

/-- C8: single-allocation OOM policy of `Fuzzer::HandleMalloc`: with a
non-zero `RssLimitMb`, an allocation whose size alone exceeds the limit
dumps an `oom-` artifact, prints final stats and exits with
`ErrorExitCode`; an allocation strictly below the limit, or any allocation
when `RssLimitMb` is 0, returns with no observable effect. -/
theorem handle_malloc_oom_policy (opts : FuzzingOptions) (Size : Nat) :
    (opts.rssLimitMb ≠ 0 → opts.rssLimitMb * 2 ^ 20 < Size →
      HandleMalloc opts Size = .oomExit ("oom-") true opts.errorExitCode) ∧
    (Size < opts.rssLimitMb * 2 ^ 20 → HandleMalloc opts Size = .ret) ∧
    (opts.rssLimitMb = 0 → HandleMalloc opts Size = .ret) := by
  refine ⟨fun h1 h2 => ?_, fun h => ?_, fun h => ?_⟩
  · refine (handleMalloc_cases opts Size).2 h1 ?_
    rw [Nat.shiftRight_eq_div_pow, not_lt]
    rw [Nat.le_div_iff_mul_le (by positivity)]
    omega
  · refine (handleMalloc_cases opts Size).1 (Or.inr ?_)
    rw [Nat.shiftRight_eq_div_pow]
    rw [Nat.div_lt_iff_lt_mul (by positivity)]
    omega
  · exact (handleMalloc_cases opts Size).1 (Or.inl h)

/-- Witness for C8 at concrete inputs: limit 1Mb, a 2Mb allocation crashes
with the configured exit code 77; a 1000-byte allocation and a disabled
limit return. -/
theorem handle_malloc_oom_policy_witness :
    HandleMalloc ⟨1, 77, true, false, false⟩ (2 ^ 21) =
      .oomExit ("oom-") true 77 ∧
    HandleMalloc ⟨1, 77, true, false, false⟩ 1000 = .ret ∧
    HandleMalloc ⟨0, 77, true, false, false⟩ (2 ^ 21) = .ret :=
  ⟨(handle_malloc_oom_policy ⟨1, 77, true, false, false⟩ (2 ^ 21)).1
      (by decide) (by norm_num),
   (handle_malloc_oom_policy ⟨1, 77, true, false, false⟩ 1000).2.1 (by norm_num),
   (handle_malloc_oom_policy ⟨0, 77, true, false, false⟩ (2 ^ 21)).2.2 rfl⟩

/-- C9: mutation-length control.  Under `MaxInputSize ≤ MaxMutationLen`,
`ComputeMutationLen` returns `MaxMutationLen` when the two are equal;
otherwise it starts from `MaxInputSize`, adds 1 exactly when the drawn
random number is divisible by `2^7` (probability `2^-7` for a uniform
draw), then adds `10 + cap/2` exactly when it is divisible by `2^15`
(probability `2^-15`; note this event forces the first), and the result is
clamped to `MaxMutationLen`; with `ExperimentalLenControl` unset the
per-iteration cap is `MaxMutationLen`. -/
theorem compute_mutation_len_spec (MIS MML R : Nat) (h : MIS ≤ MML) :
    (MIS = MML → ComputeMutationLen MIS MML R = MML) ∧
    (R % 2 ^ 7 ≠ 0 → ComputeMutationLen MIS MML R = MIS) ∧
    (R % 2 ^ 7 = 0 → R % 2 ^ 15 ≠ 0 →
      ComputeMutationLen MIS MML R = min (MIS + 1) MML) ∧
    (R % 2 ^ 15 = 0 → R % 2 ^ 7 = 0 ∧
      ComputeMutationLen MIS MML R =
        min ((MIS + 1) + (10 + (MIS + 1) / 2)) MML) ∧
    ComputeMutationLen MIS MML R ≤ MML ∧
    (∀ elc : Bool, elc = false → currentMaxMutationLen elc MIS MML R = MML) := by
  have e7 : (2 : Nat) ^ 7 = 128 := by norm_num
  have e15 : (2 : Nat) ^ 15 = 32768 := by norm_num
  have h715 : R % 2 ^ 15 = 0 → R % 2 ^ 7 = 0 := by
    intro h15
    have hd : (2 : Nat) ^ 7 ∣ 2 ^ 15 := pow_dvd_pow 2 (by norm_num)
    rw [← Nat.mod_mod_of_dvd R hd, h15]
    simp
  have heq : ∀ M, ComputeMutationLen M M R = M := fun M => by
    simp [ComputeMutationLen]
  refine ⟨fun he => by rw [he, heq], fun h7 => ?_, fun h7 h15 => ?_,
    fun h15 => ⟨h715 h15, ?_⟩, ?_, fun elc helc => by
      simp [currentMaxMutationLen, helc]⟩
  · have h15 : R % 2 ^ 15 ≠ 0 := fun hc => h7 (h715 hc)
    rw [e7] at h7
    rw [e15] at h15
    rcases eq_or_ne MIS MML with he | he
    · rw [he, heq]
    · simp [ComputeMutationLen, he, h7, h15]
      omega
  · have h7' := h7
    rw [e7] at h7'
    rw [e15] at h15
    rcases eq_or_ne MIS MML with he | he
    · subst he
      rw [heq]
      omega
    · simp [ComputeMutationLen, he, h7', h15]
  · have h7' := h715 h15
    rw [e7] at h7'
    have h15' := h15
    rw [e15] at h15'
    rcases eq_or_ne MIS MML with he | he
    · subst he
      rw [heq]
      omega
    · simp [ComputeMutationLen, he, h7', h15']
  · rcases eq_or_ne MIS MML with he | he
    · rw [he, heq]
    · simp only [ComputeMutationLen, if_neg he]
      exact min_le_right _ _

/-- Witness for C9 at concrete inputs: with `MaxInputSize = 5 ≤ 9 =
MaxMutationLen`, a draw hitting neither event keeps the cap at 5, a draw
divisible by `2^7` but not `2^15` raises it to 6, a draw divisible by
`2^15` raises it to 6 + 10 + 3 = 19 clamped to 9, and without
`ExperimentalLenControl` the cap is 9. -/
theorem compute_mutation_len_spec_witness :
    ComputeMutationLen 5 9 3 = 5 ∧
    ComputeMutationLen 5 9 128 = 6 ∧
    ComputeMutationLen 5 9 (2 ^ 15) = 9 ∧
    currentMaxMutationLen false 5 9 3 = 9 :=
  ⟨(compute_mutation_len_spec 5 9 3 (by norm_num)).2.1 (by norm_num),
   (compute_mutation_len_spec 5 9 128 (by norm_num)).2.2.1 (by norm_num)
     (by norm_num),
   by
     have := ((compute_mutation_len_spec 5 9 (2 ^ 15) (by norm_num)).2.2.2.1
       (by norm_num)).2
     simpa using this,
   (compute_mutation_len_spec 5 9 3 (by norm_num)).2.2.2.2.2 false rfl⟩

/-- C6: const-input preservation.  `LooseMemeq` is full byte equality of
the compared buffers for `Size ≤ 64` and equality of the first 32 and last
32 bytes for `Size > 64`; after a completed callback execution
`ExecuteCallback` compares the heap copy against the caller's buffer with
it, returning the callback's return value on success and writing a
`crash-` artifact of the current unit and exiting with `ErrorExitCode` on
failure. -/
theorem execute_callback_const_input (opts : FuzzingOptions)
    (cb : List Nat → Int × List Nat) (Data A B : List Nat) (Size : Nat) :
    (Size ≤ 64 → (LooseMemeq A B Size = true ↔ A.take Size = B.take Size)) ∧
    (64 < Size → (LooseMemeq A B Size = true ↔
      A.take 32 = B.take 32 ∧
      (A.drop (Size - 32)).take 32 = (B.drop (Size - 32)).take 32)) ∧
    (LooseMemeq (cb Data).2 Data Data.length = true →
      ExecuteCallback opts cb Data = .ok (cb Data).1) ∧
    (LooseMemeq (cb Data).2 Data Data.length = false →
      ExecuteCallback opts cb Data = .crashExit ("crash-") opts.errorExitCode) := by
  refine ⟨fun hle => ?_, fun hgt => ?_, fun hok => ?_, fun hbad => ?_⟩
  · simp [LooseMemeq, hle]
  · simp [LooseMemeq, not_le.mpr hgt, hgt.not_le]
  · simp [ExecuteCallback, hok]
  · simp [ExecuteCallback, hbad]

/-- Witness for C6 at concrete inputs: an input-preserving callback
returns its code 5; a callback that flips the first byte triggers the
`crash-` / `ErrorExitCode` path; the two `LooseMemeq` regimes are
exercised at sizes 2 and 70. -/
theorem execute_callback_const_input_witness :
    ExecuteCallback ⟨0, 77, true, false, false⟩ (fun d => (5, d)) [1, 2, 3] =
      .ok 5 ∧
    ExecuteCallback ⟨0, 77, true, false, false⟩ (fun d => (5, 9 :: d.tail))
        [1, 2, 3] = .crashExit ("crash-") 77 ∧
    LooseMemeq [1, 2] [1, 2] 2 = true ∧
    LooseMemeq (List.replicate 70 3) (List.replicate 70 3) 70 = true :=
  ⟨(execute_callback_const_input ⟨0, 77, true, false, false⟩ (fun d => (5, d))
      [1, 2, 3] [] [] 0).2.2.1 (by decide),
   (execute_callback_const_input ⟨0, 77, true, false, false⟩
      (fun d => (5, 9 :: d.tail)) [1, 2, 3] [] [] 0).2.2.2 (by decide),
   ((execute_callback_const_input ⟨0, 77, true, false, false⟩ (fun d => (5, d))
      [1, 2] [1, 2] [1, 2] 2).1 (by norm_num)).mpr rfl,
   ((execute_callback_const_input ⟨0, 77, true, false, false⟩ (fun d => (5, d))
      [] (List.replicate 70 3) (List.replicate 70 3) 70).2.1
      (by norm_num)).mpr ⟨rfl, rfl⟩⟩

/-- C10: empty-input short-circuit.  `RunOneCallback` with `Size = 0`
returns `false` immediately, leaves the state untouched and performs no
external call: the target callback is not invoked, no feature is
collected, and the corpus is not touched; consequently any
`Corpus.AddToCorpus` event of the feature path comes from a non-empty
input. -/
theorem run_one_callback_empty_input (opts : FuzzingOptions) (obs : CbObs)
    (Data : List Nat) (idx : Nat) (hasII : Bool) (s : FuzzerState) :
    (Data.length = 0 → RunOneCallback opts obs Data idx hasII s = (false, s, [])) ∧
    (∀ d n fs, Event.addToCorpus d n fs ∈
        (RunOneCallback opts obs Data idx hasII s).2.2 → 0 < Data.length) := by
  constructor
  · intro h
    simp [RunOneCallback, h]
  · intro d n fs hmem
    rcases Nat.eq_zero_or_pos Data.length with h0 | hpos
    · rw [(by simp [RunOneCallback, h0] :
        RunOneCallback opts obs Data idx hasII s = (false, s, []))] at hmem
      simp at hmem
    · exact hpos

/-- Witness for C10 at the concrete empty input. -/
theorem run_one_callback_empty_input_witness :
    RunOneCallback ⟨0, 77, true, false, false⟩ ⟨1, [2], 3, true⟩ [] 0 true
      ⟨[], [], 0, 0, false, 0, 0⟩ = (false, ⟨[], [], 0, 0, false, 0, 0⟩, []) :=
  (run_one_callback_empty_input ⟨0, 77, true, false, false⟩ ⟨1, [2], 3, true⟩
    [] 0 true ⟨[], [], 0, 0, false, 0, 0⟩).1 rfl

/-- C1 (the code, evaluated at the failing input): the mutation-dedup
retry loop of `MutateAndTestOne` does not discard a duplicate candidate.
With the hash of the one-byte unit `[65]` already registered in `hashMap`
and the mutation engine producing `[65]` and then `[66]`, the loop
increments `NumberOfDuplicate` — the `continue` then jumps to the
size-only loop condition, which is false since `1 ≤ cap = 4` — and exits
handing the duplicate `[65]` to `RunOne`; the second candidate `[66]` is
never requested.  The claim's required behaviour (discard the duplicate,
ask the engine for another candidate) would instead return `[66]`. -/
theorem mutation_dedup_bug :
    mutateLoop (fun u => u) 4 [[65], [66]] ⟨[[65]], 0⟩ =
      some ([65], ⟨[[65]], 1⟩) := by
  decide

theorem word_le_bytes_length (w : Nat) : (word_le_bytes w).length = 8 := rfl

theorem uint_to_uint8_drop :
    ∀ (a : Nat) (xs : List Nat),
      (uint_to_uint8 xs).drop (8 * a) = uint_to_uint8 (xs.drop a) := by
  intro a
  induction a with
  | zero => simp
  | succ a ih =>
    intro xs
    cases xs with
    | nil => simp [uint_to_uint8]
    | cons w ws =>
      have h8 : 8 * (a + 1) = (word_le_bytes w).length + 8 * a := by
        rw [word_le_bytes_length]
        ring
      rw [uint_to_uint8, h8, List.drop_append, ih]
      simp

theorem uint_to_uint8_take :
    ∀ (b : Nat) (xs : List Nat),
      (uint_to_uint8 xs).take (8 * b) = uint_to_uint8 (xs.take b) := by
  intro b
  induction b with
  | zero => simp [uint_to_uint8]
  | succ b ih =>
    intro xs
    cases xs with
    | nil => simp [uint_to_uint8]
    | cons w ws =>
      have h8 : 8 * (b + 1) = (word_le_bytes w).length + 8 * b := by
        rw [word_le_bytes_length]
        ring
      rw [uint_to_uint8, h8, List.take_append, ih, List.take_succ_cons,
        uint_to_uint8]

theorem uint_to_uint8_slice (xs : List Nat) (a b : Nat) :
    ((uint_to_uint8 xs).drop (8 * a)).take (8 * b) =
      uint_to_uint8 ((xs.drop a).take b) := by
  rw [uint_to_uint8_drop, uint_to_uint8_take]

theorem divCovLoop_eq_specRecCov (pcs : List Nat) :
    ∀ (ds : List Int) (mn : List Nat) (a : Nat),
      divCovLoop (uint_to_uint8 pcs) (8 * a) mn ds = specRecCov pcs a mn ds := by
  intro ds
  induction ds with
  | nil =>
    intro mn a
    match mn with
    | [] => rfl
    | [mn0] => rfl
    | mn0 :: mn1 :: mns => rfl
  | cons d ds ih =>
    intro mn a
    match mn with
    | [] => rfl
    | [mn0] => rfl
    | mn0 :: mn1 :: mns =>
      simp only [divCovLoop, specRecCov]
      have harith : 8 * a + 8 * mn0 = 8 * (a + mn0) := by ring
      rw [harith, uint_to_uint8_slice, ih (mn1 :: mns) (a + mn0)]

theorem sum_take_succ_getD (l : List Nat) (n : Nat) :
    (l.take (n + 1)).sum = (l.take n).sum + l.getD n 0 := by
  rw [List.take_succ, List.sum_append, List.getD_eq_getElem?_getD]
  cases h : l[n]? <;> simp [h]

theorem pcRegionStart_diff (MN : List Nat) (i : Nat) :
    pcRegionStart MN (i + 1) - pcRegionStart MN i = MN.getD (i + 1) 0 := by
  have := sum_take_succ_getD MN (i + 1)
  simp only [pcRegionStart]
  omega

theorem concatAll_eq_nil_of_all_nil :
    ∀ L : List (List Nat), (∀ l ∈ L, l = []) → concatAll L = [] := by
  intro L
  induction L with
  | nil => intro _; rfl
  | cons x xs ih =>
    intro h
    rw [concatAll, h x (by simp), ih fun l hl => h l (by simp [hl])]
    rfl

theorem specRecCov_eq_range (pcs : List Nat) :
    ∀ (ds : List Int) (mn : List Nat) (a : Nat),
      specRecCov pcs a mn ds =
        concatAll ((List.range ds.length).map fun i =>
          if ds.getD i 0 ≠ 0 then
            uint_to_uint8 ((pcs.drop (a + (mn.take (i + 1)).sum)).take
              (mn.getD (i + 1) 0))
          else []) := by
  intro ds
  induction ds with
  | nil =>
    intro mn a
    match mn with
    | [] => rfl
    | [mn0] => rfl
    | mn0 :: mn1 :: mns => rfl
  | cons d ds ih =>
    intro mn a
    rw [List.length_cons, List.range_succ_eq_map, List.map_cons, concatAll,
      List.map_map]
    match mn with
    | mn0 :: mn1 :: mns =>
      simp only [specRecCov]
      congr 1
      rw [ih (mn1 :: mns) (a + mn0)]
      congr 1
      congr 1
      funext i
      simp only [Function.comp_apply, List.getD_cons_succ, List.take_succ_cons,
        List.sum_cons, ← Nat.add_assoc]
    | [] =>
      have hnil : concatAll (List.map ((fun i =>
          if (d :: ds).getD i 0 ≠ 0 then
            uint_to_uint8 ((pcs.drop (a + (([] : List Nat).take (i + 1)).sum)).take
              (([] : List Nat).getD (i + 1) 0))
          else []) ∘ Nat.succ) (List.range ds.length)) = [] := by
        apply concatAll_eq_nil_of_all_nil
        intro l hl
        rcases List.mem_map.mp hl with ⟨j, hj, rfl⟩
        simp [uint_to_uint8]
      rw [hnil]
      simp [specRecCov, uint_to_uint8]
    | [mn0] =>
      have hnil : concatAll (List.map ((fun i =>
          if (d :: ds).getD i 0 ≠ 0 then
            uint_to_uint8 ((pcs.drop (a + ([mn0].take (i + 1)).sum)).take
              ([mn0].getD (i + 1) 0))
          else []) ∘ Nat.succ) (List.range ds.length)) = [] := by
        apply concatAll_eq_nil_of_all_nil
        intro l hl
        rcases List.mem_map.mp hl with ⟨j, hj, rfl⟩
        simp [List.getD_cons_succ, uint_to_uint8]
      rw [hnil]
      simp [specRecCov, List.getD_cons_succ, uint_to_uint8]

/-- C3: divergence-coverage construction.  The byte blob fingerprinted by
`DumpUnitIfDiff` equals the concatenation, over callbacks `i` with
`output_diff_vec[i] != 0` in increasing `i`, of exactly callback `i`'s PC
region of the global PC table — the words from `prefix[i]` to
`prefix[i+1]` with `prefix[i] = ModuleNum[0] + ... + ModuleNum[i]` — each
native word packed little-endian into 8 bytes; callbacks with return code
0 contribute nothing, and the fingerprint is the SHA-1 of that blob. -/
theorem divergence_coverage_construction (sha1f : List Nat → List Nat)
    (pcs MN : List Nat) (dv : List Int) :
    divCoverageBlob pcs MN dv = spec_divergence_coverage pcs MN dv ∧
    divergenceFingerprint sha1f pcs MN dv =
      sha1f (spec_divergence_coverage pcs MN dv) := by
  have hmain : divCoverageBlob pcs MN dv = spec_divergence_coverage pcs MN dv := by
    have h0 := divCovLoop_eq_specRecCov pcs dv MN 0
    rw [Nat.mul_zero] at h0
    rw [divCoverageBlob, h0, specRecCov_eq_range]
    rw [spec_divergence_coverage]
    congr 1
    congr 1
    funext i
    simp only [pcRegionStart_diff]
    simp only [pcRegionStart, Nat.zero_add]
  exact ⟨hmain, by rw [divergenceFingerprint, hmain]⟩

theorem hasZero_iff (dv : List Int) : hasZero dv = true ↔ ∃ x ∈ dv, x = 0 := by
  simp [hasZero, List.any_eq_true]

theorem hasNonzero_iff (dv : List Int) : hasNonzero dv = true ↔ ∃ x ∈ dv, x ≠ 0 := by
  simp [hasNonzero, List.any_eq_true]

theorem dumpUnitIfDiff_cases (sha1f : List Nat → List Nat) (pcs MN Data : List Nat)
    (s : FuzzerState) :
    (DumpUnitIfDiff sha1f pcs MN Data s = (s, []) ∧
      (hasZero s.outputDiffVec && hasNonzero s.outputDiffVec) = false) ∨
    ((hasZero s.outputDiffVec && hasNonzero s.outputDiffVec) = true ∧
      divergenceFingerprint sha1f pcs MN s.outputDiffVec ∈ s.coverageHash ∧
      DumpUnitIfDiff sha1f pcs MN Data s =
        ({s with duplicate := s.duplicate + 1}, [])) ∨
    ((hasZero s.outputDiffVec && hasNonzero s.outputDiffVec) = true ∧
      divergenceFingerprint sha1f pcs MN s.outputDiffVec ∉ s.coverageHash ∧
      DumpUnitIfDiff sha1f pcs MN Data s =
        ({s with coverageHash := divergenceFingerprint sha1f pcs MN s.outputDiffVec :: s.coverageHash, unitHadOutputDiff := true, numberOfDiffUnitsAdded := s.numberOfDiffUnitsAdded + 1},
         [Event.writeArtifact ("diff_" ++ outvecStr s.outputDiffVec) Data])) := by
  by_cases hg : (hasZero s.outputDiffVec && hasNonzero s.outputDiffVec) = true
  · by_cases hm : divergenceFingerprint sha1f pcs MN s.outputDiffVec ∈ s.coverageHash
    · exact Or.inr (Or.inl ⟨hg, hm, by simp [DumpUnitIfDiff, hg, hm]⟩)
    · exact Or.inr (Or.inr ⟨hg, hm, by simp [DumpUnitIfDiff, hg, hm]⟩)
  · exact Or.inl ⟨by simp [DumpUnitIfDiff, Bool.eq_false_iff.mpr hg],
      Bool.eq_false_iff.mpr hg⟩

/-- C4: divergence gate.  `DumpUnitIfDiff` writes an artifact, and can set
`UnitHadOutputDiff`, only when the vector of callback return codes holds
at least one zero and at least one non-zero entry; a uniformly zero or
uniformly non-zero vector changes nothing: no artifact, no fingerprint
recorded, no counter changed. -/
theorem diff_gate (sha1f : List Nat → List Nat) (pcs MN Data : List Nat)
    (s : FuzzerState) :
    ((∀ x ∈ s.outputDiffVec, x = 0) ∨ (∀ x ∈ s.outputDiffVec, x ≠ 0) →
      DumpUnitIfDiff sha1f pcs MN Data s = (s, [])) ∧
    (∀ tag d, Event.writeArtifact tag d ∈ (DumpUnitIfDiff sha1f pcs MN Data s).2 →
      (∃ x ∈ s.outputDiffVec, x = 0) ∧ (∃ x ∈ s.outputDiffVec, x ≠ 0)) ∧
    ((DumpUnitIfDiff sha1f pcs MN Data s).1.unitHadOutputDiff = true →
      s.unitHadOutputDiff = false →
      (∃ x ∈ s.outputDiffVec, x = 0) ∧ (∃ x ∈ s.outputDiffVec, x ≠ 0)) := by
  have hgate : (hasZero s.outputDiffVec && hasNonzero s.outputDiffVec) = true →
      (∃ x ∈ s.outputDiffVec, x = 0) ∧ (∃ x ∈ s.outputDiffVec, x ≠ 0) := by
    intro h
    rcases Bool.and_eq_true_iff.mp h with ⟨h1, h2⟩
    exact ⟨(hasZero_iff _).mp h1, (hasNonzero_iff _).mp h2⟩
  refine ⟨fun h => ?_, fun tag d hmem => ?_, fun hflag hold => ?_⟩
  · have hg : (hasZero s.outputDiffVec && hasNonzero s.outputDiffVec) = false := by
      rcases h with h | h
      · have : hasNonzero s.outputDiffVec = false := by
          rw [Bool.eq_false_iff]
          intro hc
          rcases (hasNonzero_iff _).mp hc with ⟨x, hx, hx0⟩
          exact hx0 (h x hx)
        simp [this]
      · have : hasZero s.outputDiffVec = false := by
          rw [Bool.eq_false_iff]
          intro hc
          rcases (hasZero_iff _).mp hc with ⟨x, hx, hx0⟩
          exact h x hx hx0
        simp [this]
    simp [DumpUnitIfDiff, hg]
  · rcases dumpUnitIfDiff_cases sha1f pcs MN Data s with ⟨heq, _⟩ | ⟨hg, _, heq⟩ |
      ⟨hg, _, heq⟩
    · rw [heq] at hmem
      simp at hmem
    · rw [heq] at hmem
      simp at hmem
    · exact hgate hg
  · rcases dumpUnitIfDiff_cases sha1f pcs MN Data s with ⟨heq, _⟩ | ⟨hg, _, heq⟩ |
      ⟨hg, _, heq⟩
    · rw [heq] at hflag
      rw [hflag] at hold
      exact absurd hold (by simp)
    · rw [heq] at hflag
      simp at hflag
      rw [hflag] at hold
      exact absurd hold (by simp)
    · exact hgate hg

/-- Witness for C4 at concrete inputs: the uniformly zero vector `[0, 0]`
and the uniformly non-zero vector `[1, 2]` leave the state untouched and
write nothing. -/
theorem diff_gate_witness :
    DumpUnitIfDiff (fun u => u) [10, 20] [0, 1, 1] [9]
      ⟨[0, 0], [], 0, 0, false, 0, 0⟩ = (⟨[0, 0], [], 0, 0, false, 0, 0⟩, []) ∧
    DumpUnitIfDiff (fun u => u) [10, 20] [0, 1, 1] [9]
      ⟨[1, 2], [], 0, 0, false, 0, 0⟩ = (⟨[1, 2], [], 0, 0, false, 0, 0⟩, []) :=
  ⟨(diff_gate (fun u => u) [10, 20] [0, 1, 1] [9]
      ⟨[0, 0], [], 0, 0, false, 0, 0⟩).1 (Or.inl (by decide)),
   (diff_gate (fun u => u) [10, 20] [0, 1, 1] [9]
      ⟨[1, 2], [], 0, 0, false, 0, 0⟩).1 (Or.inr (by decide))⟩

theorem countDiffWrites_zero_of_mem (sha1f : List Nat → List Nat)
    (pcs MN fp : List Nat) :
    ∀ (calls : List (List Nat × List Int)) (s : FuzzerState),
      fp ∈ s.coverageHash → countDiffWrites sha1f pcs MN fp calls s = 0 := by
  intro calls
  induction calls with
  | nil => intro s _; rfl
  | cons c rest ih =>
    intro s hmem
    simp only [countDiffWrites]
    have hno : ¬ (divergenceFingerprint sha1f pcs MN c.2 = fp ∧
        (DumpUnitIfDiff sha1f pcs MN c.1 {s with outputDiffVec := c.2}).2 ≠ []) := by
      rintro ⟨hfp, hne⟩
      rcases dumpUnitIfDiff_cases sha1f pcs MN c.1 {s with outputDiffVec := c.2} with
        ⟨heq, _⟩ | ⟨_, _, heq⟩ | ⟨_, hnm, heq⟩
      · rw [heq] at hne
        exact hne rfl
      · rw [heq] at hne
        exact hne rfl
      · apply hnm
        rw [hfp]
        exact hmem
    rw [if_neg hno, Nat.zero_add]
    apply ih
    rcases dumpUnitIfDiff_cases sha1f pcs MN c.1 {s with outputDiffVec := c.2} with
      ⟨heq, _⟩ | ⟨_, _, heq⟩ | ⟨_, _, heq⟩ <;> rw [heq]
    · exact hmem
    · exact hmem
    · exact List.mem_cons_of_mem _ hmem

theorem countDiffWrites_le_one (sha1f : List Nat → List Nat)
    (pcs MN fp : List Nat) :
    ∀ (calls : List (List Nat × List Int)) (s : FuzzerState),
      countDiffWrites sha1f pcs MN fp calls s ≤ 1 := by
  intro calls
  induction calls with
  | nil => intro s; simp [countDiffWrites]
  | cons c rest ih =>
    intro s
    simp only [countDiffWrites]
    by_cases hemit : divergenceFingerprint sha1f pcs MN c.2 = fp ∧
        (DumpUnitIfDiff sha1f pcs MN c.1 {s with outputDiffVec := c.2}).2 ≠ []
    · have h0 : countDiffWrites sha1f pcs MN fp rest
          (DumpUnitIfDiff sha1f pcs MN c.1 {s with outputDiffVec := c.2}).1 = 0 := by
        apply countDiffWrites_zero_of_mem
        rcases dumpUnitIfDiff_cases sha1f pcs MN c.1 {s with outputDiffVec := c.2} with
          ⟨heq, _⟩ | ⟨_, _, heq⟩ | ⟨_, _, heq⟩
        · rw [heq] at hemit
          exact absurd rfl hemit.2
        · rw [heq] at hemit
          exact absurd rfl hemit.2
        · rw [heq]
          rw [← hemit.1]
          exact List.mem_cons_self _ _
      rw [if_pos hemit, h0]
    · rw [if_neg hemit, Nat.zero_add]
      exact ih _

/-- C2: divergence fingerprint uniqueness.  On a divergence (both a zero
and non-zero return present) whose fingerprint is already in
`CoverageHash`, `DumpUnitIfDiff` only increments `Duplicate` — no
artifact, `UnitHadOutputDiff` and `NumberOfDiffUnitsAdded` untouched; on
an unseen fingerprint it inserts it, sets `UnitHadOutputDiff`, increments
`NumberOfDiffUnitsAdded` and writes exactly one artifact whose name
prefix is `diff_<outvec>_` (the unit's SHA-1 hex completes the filename);
and along any whole process history at most one `diff_*` artifact is
written per fingerprint. -/
theorem diff_fingerprint_unique (sha1f : List Nat → List Nat)
    (pcs MN Data : List Nat) (s : FuzzerState) :
    (hasZero s.outputDiffVec = true → hasNonzero s.outputDiffVec = true →
      (divergenceFingerprint sha1f pcs MN s.outputDiffVec ∈ s.coverageHash →
        DumpUnitIfDiff sha1f pcs MN Data s =
          ({s with duplicate := s.duplicate + 1}, [])) ∧
      (divergenceFingerprint sha1f pcs MN s.outputDiffVec ∉ s.coverageHash →
        DumpUnitIfDiff sha1f pcs MN Data s =
          ({s with coverageHash := divergenceFingerprint sha1f pcs MN s.outputDiffVec :: s.coverageHash, unitHadOutputDiff := true, numberOfDiffUnitsAdded := s.numberOfDiffUnitsAdded + 1},
           [Event.writeArtifact ("diff_" ++ outvecStr s.outputDiffVec) Data]))) ∧
    (∀ (fp : List Nat) (calls : List (List Nat × List Int)) (s₀ : FuzzerState),
      countDiffWrites sha1f pcs MN fp calls s₀ ≤ 1) := by
  refine ⟨fun hz hnz => ⟨fun hm => ?_, fun hm => ?_⟩,
    fun fp calls s₀ => countDiffWrites_le_one sha1f pcs MN fp calls s₀⟩
  · simp [DumpUnitIfDiff, hz, hnz, hm]
  · simp [DumpUnitIfDiff, hz, hnz, hm]

/-- Witness for C2 at concrete inputs: with PC table `[10, 20]`, region
counts `[0, 1, 1]` and return vector `[0, 1]`, the fingerprint (under the
identity in place of SHA-1) is the packed second PC region
`[20, 0, 0, 0, 0, 0, 0, 0]`; with it already recorded, the call only bumps
`Duplicate` from 2 to 3, and the at-most-one bound holds on a concrete
two-call history replaying the same divergence. -/
theorem diff_fingerprint_unique_witness :
    DumpUnitIfDiff (fun u => u) [10, 20] [0, 1, 1] [9]
      ⟨[0, 1], [[20, 0, 0, 0, 0, 0, 0, 0]], 2, 1, false, 0, 0⟩ =
      (⟨[0, 1], [[20, 0, 0, 0, 0, 0, 0, 0]], 3, 1, false, 0, 0⟩, []) ∧
    countDiffWrites (fun u => u) [10, 20] [0, 1, 1] [20, 0, 0, 0, 0, 0, 0, 0]
      [([9], [0, 1]), ([7], [0, 1])] ⟨[], [], 0, 0, false, 0, 0⟩ ≤ 1 :=
  ⟨((diff_fingerprint_unique (fun u => u) [10, 20] [0, 1, 1] [9]
      ⟨[0, 1], [[20, 0, 0, 0, 0, 0, 0, 0]], 2, 1, false, 0, 0⟩).1
      (by decide) (by decide)).1 (by decide),
   (diff_fingerprint_unique (fun u => u) [10, 20] [0, 1, 1] [9]
      ⟨[0, 1], [[20, 0, 0, 0, 0, 0, 0, 0]], 2, 1, false, 0, 0⟩).2
      [20, 0, 0, 0, 0, 0, 0, 0] [([9], [0, 1]), ([7], [0, 1])]
      ⟨[], [], 0, 0, false, 0, 0⟩⟩

theorem runOneCallback_flag (opts : FuzzingOptions) (ob : CbObs) (Data : List Nat)
    (i : Nat) (hasII : Bool) (s : FuzzerState) :
    (RunOneCallback opts ob Data i hasII s).2.1.unitHadOutputDiff =
      s.unitHadOutputDiff := by
  by_cases h0 : Data.length = 0
  · simp [RunOneCallback, h0]
  · by_cases hnf : 0 < ob.numNewFeatures
    · by_cases hdm : opts.differentialMode <;>
        simp [RunOneCallback, h0, hnf, hdm]
    · by_cases hdm : opts.differentialMode <;>
        by_cases htr : hasII && ob.tryReplaceOk <;>
          simp [RunOneCallback, h0, hnf, hdm, htr]

theorem runCallbacksFrom_flag (opts : FuzzingOptions) (hasII : Bool)
    (Data : List Nat) :
    ∀ (obs : List CbObs) (i : Nat) (s : FuzzerState),
      (runCallbacksFrom opts hasII Data i obs s).2.1.unitHadOutputDiff =
        s.unitHadOutputDiff := by
  intro obs
  induction obs with
  | nil => intro i s; rfl
  | cons ob obs ih =>
    intro i s
    simp only [runCallbacksFrom]
    rw [ih]
    exact runOneCallback_flag opts ob Data i hasII s

theorem diffRetentionStep_spec (sha1f : List Nat → List Nat)
    (pcs MN Data : List Nat) (nc : Nat) (newDiff : Bool) (s : FuzzerState)
    (h : s.unitHadOutputDiff = false) :
    ((diffRetentionStep sha1f pcs MN Data nc newDiff s).1.unitHadOutputDiff = true →
      (diffRetentionStep sha1f pcs MN Data nc newDiff s).2.count
        (Event.addToCorpus Data nc []) = 1 ∧
      Event.addToCorpus Data nc [] ∈
        (diffRetentionStep sha1f pcs MN Data nc newDiff s).2) ∧
    ((diffRetentionStep sha1f pcs MN Data nc newDiff s).1.unitHadOutputDiff = false →
      ∀ d n fs, Event.addToCorpus d n fs ∉
        (diffRetentionStep sha1f pcs MN Data nc newDiff s).2) := by
  by_cases hnd : newDiff = true
  · rcases dumpUnitIfDiff_cases sha1f pcs MN Data s with
      ⟨heq, _⟩ | ⟨_, _, heq⟩ | ⟨_, _, heq⟩
    · have hres : diffRetentionStep sha1f pcs MN Data nc newDiff s = (s, []) := by
        simp [diffRetentionStep, hnd, heq, h]
      rw [hres]
      exact ⟨fun hc => absurd (h ▸ hc) (by simp [h]), fun _ d n fs => by simp⟩
    · have hres : diffRetentionStep sha1f pcs MN Data nc newDiff s =
          ({s with duplicate := s.duplicate + 1}, []) := by
        simp [diffRetentionStep, hnd, heq, h]
      rw [hres]
      exact ⟨fun hc => absurd hc (by simp [h]), fun _ d n fs => by simp⟩
    · have hflag : (DumpUnitIfDiff sha1f pcs MN Data s).1.unitHadOutputDiff = true := by
        rw [heq]
      have hres : diffRetentionStep sha1f pcs MN Data nc newDiff s =
          ((DumpUnitIfDiff sha1f pcs MN Data s).1,
           (DumpUnitIfDiff sha1f pcs MN Data s).2 ++
             [Event.addToCorpus Data nc []]) := by
        simp [diffRetentionStep, hnd, hflag]
      rw [hres]
      refine ⟨fun _ => ⟨?_, ?_⟩, fun hc d n fs => ?_⟩
      · rw [heq]
        simp [List.count_append, List.count_cons]
      · simp
      · rw [hflag] at hc
        simp at hc
  · have hnd' : newDiff = false := by
      cases newDiff
      · rfl
      · exact absurd rfl hnd
    have hres : diffRetentionStep sha1f pcs MN Data nc newDiff s = (s, []) := by
      simp [diffRetentionStep, hnd']
    rw [hres]
    exact ⟨fun hc => absurd hc (by simp [h]), fun _ d n fs => by simp⟩

/-- C5: retention of divergent inputs.  In differential mode, whenever a
run of `RunOne` ends with `UnitHadOutputDiff` set, the input was added to
the corpus with `num_features` equal to the run's coverage delta
(`GetTotalPCCoverage()` after minus before) and an empty feature set; the
divergence block adds it exactly once in that case, and adds nothing when
`new_diff` holds but `UnitHadOutputDiff` was not set. -/
theorem diff_retention (sha1f : List Nat → List Nat) (pcs MN : List Nat)
    (opts : FuzzingOptions) (obsList : List CbObs) (newDiff newTrace : Bool)
    (covB covA : Nat) (hasII : Bool) (Data : List Nat) (s : FuzzerState)
    (nc : Nat) (s₂ : FuzzerState) :
    (opts.differentialMode = true →
      (RunOne sha1f pcs MN opts obsList newDiff newTrace covB covA hasII Data
        s).2.1.unitHadOutputDiff = true →
      Event.addToCorpus Data (covA - covB) [] ∈
        (RunOne sha1f pcs MN opts obsList newDiff newTrace covB covA hasII Data
          s).2.2) ∧
    (s₂.unitHadOutputDiff = false →
      ((diffRetentionStep sha1f pcs MN Data nc newDiff s₂).1.unitHadOutputDiff =
          true →
        (diffRetentionStep sha1f pcs MN Data nc newDiff s₂).2.count
          (Event.addToCorpus Data nc []) = 1) ∧
      ((diffRetentionStep sha1f pcs MN Data nc newDiff s₂).1.unitHadOutputDiff =
          false →
        ∀ d n fs, Event.addToCorpus d n fs ∉
          (diffRetentionStep sha1f pcs MN Data nc newDiff s₂).2)) := by
  constructor
  · intro hdm hflag
    cases hnt : newTrace with
    | false =>
      rw [hnt] at hflag
      simp only [RunOne, hdm, if_true, Bool.false_eq_true, if_false] at hflag ⊢
      have hs2 : (runCallbacksFrom opts hasII Data 0 obsList
          {s with unitHadOutputDiff := false}).2.1.unitHadOutputDiff = false := by
        rw [runCallbacksFrom_flag]
      have hspec := (diffRetentionStep_spec sha1f pcs MN Data (covA - covB)
        newDiff _ hs2).1
      exact List.mem_append_right _ (hspec hflag).2
    | true =>
      rw [hnt] at hflag
      simp only [RunOne, hdm, if_true] at hflag ⊢
      have hs2 : ({(runCallbacksFrom opts hasII Data 0 obsList {s with unitHadOutputDiff := false}).2.1 with numberofValidCases := (runCallbacksFrom opts hasII Data 0 obsList {s with unitHadOutputDiff := false}).2.1.numberofValidCases + 1} : FuzzerState).unitHadOutputDiff = false := by
        show (runCallbacksFrom opts hasII Data 0 obsList
          {s with unitHadOutputDiff := false}).2.1.unitHadOutputDiff = false
        rw [runCallbacksFrom_flag]
      have hspec := (diffRetentionStep_spec sha1f pcs MN Data (covA - covB)
        newDiff _ hs2).1
      exact List.mem_append_right _ (hspec hflag).2
  · intro h2
    have hspec := diffRetentionStep_spec sha1f pcs MN Data nc newDiff s₂ h2
    exact ⟨fun hf => (hspec.1 hf).1, hspec.2⟩

/-- Witness for C5 at concrete inputs: two callbacks returning 0 and 1 on
the unit `[9]`, a fresh divergence fingerprint, coverage 1 before and 3
after; the run sets `UnitHadOutputDiff` and the corpus-add event with
`num_features = 2` and empty feature set is among the run's events, and
the divergence block emits exactly one such event. -/
theorem diff_retention_witness :
    Event.addToCorpus [9] 2 [] ∈
      (RunOne (fun u => u) [10, 20] [0, 1, 1] ⟨0, 77, true, false, false⟩
        [⟨0, [], 0, false⟩, ⟨1, [], 0, false⟩] true false 1 3 false [9]
        ⟨[5, 5], [], 0, 0, false, 0, 0⟩).2.2 ∧
    (diffRetentionStep (fun u => u) [10, 20] [0, 1, 1] [9] 2 true
      ⟨[0, 1], [], 0, 0, false, 0, 0⟩).2.count (Event.addToCorpus [9] 2 []) = 1 :=
  ⟨(diff_retention (fun u => u) [10, 20] [0, 1, 1] ⟨0, 77, true, false, false⟩
      [⟨0, [], 0, false⟩, ⟨1, [], 0, false⟩] true false 1 3 false [9]
      ⟨[5, 5], [], 0, 0, false, 0, 0⟩ 2 ⟨[0, 1], [], 0, 0, false, 0, 0⟩).1
      rfl (by decide),
   ((diff_retention (fun u => u) [10, 20] [0, 1, 1] ⟨0, 77, true, false, false⟩
      [⟨0, [], 0, false⟩, ⟨1, [], 0, false⟩] true false 1 3 false [9]
      ⟨[5, 5], [], 0, 0, false, 0, 0⟩ 2 ⟨[0, 1], [], 0, 0, false, 0, 0⟩).2
      rfl).1 (by decide)⟩

/-- C7: interesting-result contract of the differential run.  In
differential mode `RunOne` reports an input interesting exactly when at
least one per-callback run was interesting (`features > 0`) or
`TPC.NewOutputDiff_change()` returned true; with no new features and no
new divergence it returns false. -/
theorem run_one_interesting (sha1f : List Nat → List Nat) (pcs MN : List Nat)
    (opts : FuzzingOptions) (obsList : List CbObs) (newDiff newTrace : Bool)
    (covB covA : Nat) (hasII : Bool) (Data : List Nat) (s : FuzzerState)
    (hdm : opts.differentialMode = true) :
    (RunOne sha1f pcs MN opts obsList newDiff newTrace covB covA hasII Data
      s).1 = true ↔
    (0 < (runCallbacksFrom opts hasII Data 0 obsList
      {s with unitHadOutputDiff := false}).1 ∨ newDiff = true) := by
  by_cases hf : 0 < (runCallbacksFrom opts hasII Data 0 obsList
      {s with unitHadOutputDiff := false}).1
  · simp [RunOne, hdm, hf]
  · simp [RunOne, hdm, hf]

/-- Witness for C7: a differential run with no callbacks (so no features)
and a new divergence returns true. -/
theorem run_one_interesting_witness :
    (RunOne (fun u => u) [] [] ⟨0, 77, true, false, false⟩ [] true false 0 0
      false [] ⟨[], [], 0, 0, false, 0, 0⟩).1 = true :=
  (run_one_interesting (fun u => u) [] [] ⟨0, 77, true, false, false⟩ [] true
    false 0 0 false [] ⟨[], [], 0, 0, false, 0, 0⟩ rfl).mpr (Or.inr rfl)
